import Mathlib

/-
Verification development for the Healr repository.

The two core subsystems are embedded shallowly:
  * src/code_editor.py  (class CodeEditor): backup store and mutation engine,
    modelled over an explicit filesystem state FS mapping path strings to
    optional file contents (contents are lists of characters, so that byte
    level reasoning is exact).
  * src/issue_detector.py (get_issue_priority): priority assignment and the
    stable sort used to rank issues.
  * src/main.py (fix_repository): the per file fix loop with its cap of five
    issues per file and its success flag.

External collaborators are parameters of the embedding:
  * the Python parser ast.parse is a parameter of type PyParse, returning
    either a syntax tree (a list of top level nodes) or a syntax error;
  * I/O failure of the write step, the content left behind by a failing
    write, and failure of the restore copy are fields of an EditEnv oracle;
  * the LLM content generator and the per issue outcome in the orchestrator
    loop are an oracle function returning a FixOutcome.

All definitions are executable and kernel reducible (no well founded
recursion on the evaluation path), so concrete witnesses evaluate by decide.
-/

namespace Healr

/-- File contents as a list of characters, so edits are byte exact. -/
abbrev Content := List Char

/-- The filesystem: a map from path to optional content. -/
abbrev FS := String → Option Content

/-- Write one file in the filesystem state. -/
def fsSet (fs : FS) (p : String) (c : Content) : FS :=
  fun q => if q = p then some c else fs q

/-- Python str.startswith restricted to lists: pat begins s. -/
def leadsWith : Content → Content → Bool
  | [], _ => true
  | _ :: _, [] => false
  | p :: ps, c :: cs => p = c && leadsWith ps cs

/-- Python str.endswith on lists: suf ends s. -/
def listEndsWith (s suf : Content) : Bool :=
  leadsWith suf.reverse s.reverse

/-- Python str.endswith on strings (used for the .py extension gate). -/
def strEndsWith (s suf : String) : Bool :=
  listEndsWith s.data suf.data

/-- Index of the leftmost occurrence of pat in s, as Python str.find /
the membership test `old in s`.  The empty pattern matches at index 0. -/
def firstOccIdx (pat : Content) : Content → Option Nat
  | [] => if leadsWith pat [] then some 0 else none
  | c :: t =>
    if leadsWith pat (c :: t) then some 0
    else (firstOccIdx pat t).map (fun n => n + 1)

/-- Python membership test `pat in s`. -/
def occurs (s pat : Content) : Bool :=
  (firstOccIdx pat s).isSome

/-- Python s.replace(old, new, 1): replace the leftmost occurrence only. -/
def replaceFirst (s old new : Content) : Content :=
  match firstOccIdx old s with
  | none => s
  | some i => s.take i ++ new ++ s.drop (i + old.length)

/-- Python s.split(chr): split on every occurrence of one character,
never empty, and an empty input gives one empty field. -/
def splitOnChar (sep : Char) : Content → List Content
  | [] => [[]]
  | c :: rest =>
    if c = sep then [] :: splitOnChar sep rest
    else
      match splitOnChar sep rest with
      | [] => [[c]]
      | h :: t => (c :: h) :: t

/-- Python content.split(newline), as used by apply_function_edit. -/
def splitOnNl (c : Content) : List Content :=
  splitOnChar '\n' c

/-- Python (newline).join(lines), as used by apply_function_edit. -/
def joinNl : List Content → Content
  | [] => []
  | [l] => l
  | l :: ls => l ++ '\n' :: joinNl ls

/-- Python file.readlines(): split keeping the terminator on every line;
an empty file yields no lines. -/
def readlines : Content → List Content
  | [] => []
  | c :: rest =>
    if c = '\n' then ['\n'] :: readlines rest
    else
      match readlines rest with
      | [] => [[c]]
      | h :: t => (c :: h) :: t

/-!  The Python abstract syntax tree, as far as apply_function_edit needs it.
A node is either a synchronous function definition (ast.FunctionDef), an
asynchronous one (ast.AsyncFunctionDef, a distinct class in the ast module,
not a subclass of FunctionDef), or any other node kind.  Each node carries
the child nodes that ast.iter_child_nodes would yield; function definitions
also carry their name and their lineno / end_lineno attributes. -/

inductive PyNode where
  | functionDef (name : String) (lineno endLineno : Nat) (body : List PyNode)
  | asyncFunctionDef (name : String) (lineno endLineno : Nat) (body : List PyNode)
  | other (body : List PyNode)

/-- The children a node hands to ast.iter_child_nodes. -/
def PyNode.children : PyNode → List PyNode
  | .functionDef _ _ _ b => b
  | .asyncFunctionDef _ _ _ b => b
  | .other b => b

/-- lineno of a node (0 for kinds where the model does not track it). -/
def PyNode.lineno : PyNode → Nat
  | .functionDef _ l _ _ => l
  | .asyncFunctionDef _ l _ _ => l
  | .other _ => 0

/-- end_lineno of a node (0 for kinds where the model does not track it). -/
def PyNode.endLineno : PyNode → Nat
  | .functionDef _ _ e _ => e
  | .asyncFunctionDef _ _ e _ => e
  | .other _ => 0

/-- The test performed by the locator loop in apply_function_edit:
isinstance(node, ast.FunctionDef) and node.name == function_name.
An AsyncFunctionDef never passes this test. -/
def PyNode.isFnNamed (fname : String) : PyNode → Bool
  | .functionDef n _ _ _ => n = fname
  | _ => false

mutual

/-- Number of nodes in one tree. -/
def PyNode.count : PyNode → Nat
  | .functionDef _ _ _ b => 1 + countNodes b
  | .asyncFunctionDef _ _ _ b => 1 + countNodes b
  | .other b => 1 + countNodes b

/-- Total number of nodes in a forest. -/
def countNodes : List PyNode → Nat
  | [] => 0
  | n :: rest => PyNode.count n + countNodes rest

end

/-- Fuelled breadth first traversal (the queue discipline of ast.walk). -/
def walkBFSFuel : Nat → List PyNode → List PyNode
  | 0, _ => []
  | _, [] => []
  | fuel + 1, n :: rest => n :: walkBFSFuel fuel (rest ++ n.children)

/-- ast.walk on a forest: pop the front of the queue, yield it, push its
children at the back.  ast.walk(tree) applied to a Module yields the Module
node first (which never matches the locator test) and then behaves exactly
like walkBFS on the list of top level statements. -/
def walkBFS (q : List PyNode) : List PyNode :=
  walkBFSFuel (countNodes q) q

/-- x is a node of the tree rooted at z (reflexive, through children). -/
inductive InTree : PyNode → PyNode → Prop where
  | refl (x : PyNode) : InTree x x
  | child {x y z : PyNode} : y ∈ z.children → InTree x y → InTree x z

/-!  The mutation engine, src/code_editor.py. -/

/-- The data a Python SyntaxError carries (msg, lineno, offset). -/
structure PyErrInfo where
  msg : String
  line : Option Nat
  offset : Option Nat
deriving DecidableEq, Repr

/-- The external parser ast.parse: either the list of top level nodes of the
Module, or a syntax error.  apply_edit only looks at which side it is on;
apply_function_edit walks the returned nodes. -/
abbrev PyParse := Content → Except PyErrInfo (List PyNode)

/-- The oracle for the nondeterministic parts of one mutation attempt:
the timestamp used in the backup name, whether the write step raises, the
content the target file is left with if the write raises mid way, and
whether the restore copy inside the exception handler itself raises. -/
structure EditEnv where
  timestamp : String
  writeThrows : Bool
  writeErrMsg : String
  garbled : Content
  restoreThrows : Bool

/-- Result dictionary of validate_python_src. -/
structure ValidationResult where
  valid : Bool
  error : Option String
  line : Option Nat
  offset : Option Nat
deriving DecidableEq, Repr

/-- The syntax validator of CodeEditor (validate then parse helper): run
ast.parse on the code; on SyntaxError record msg, lineno and offset.  (The catch all branch for non syntax exceptions of
ast.parse is not modelled: the parser oracle returns syntax errors only.) -/
def validate_python_src (pp : PyParse) (code : Content) : ValidationResult :=
  match pp code with
  | .ok _ => ⟨true, none, none, none⟩
  | .error e => ⟨false, some e.msg, e.line, e.offset⟩

/-- Result dictionary of apply_edit.  Keys that the Python dict only gains
later (validation, restored) are Options / Bools that start at none / false. -/
structure EditResult where
  success : Bool
  backup_path : Option String
  error : Option String
  validation : Option ValidationResult
  restored : Bool
deriving DecidableEq, Repr

def EditResult.init : EditResult := ⟨false, none, none, none, false⟩

/-- Keep every character except the separator drops, mapping backslash to
underscore: rel_path.replace(colon, empty).replace(backslash, underscore),
both patterns being single characters. -/
def sanitizeChars (l : Content) : Content :=
  (l.filter (fun c => c ≠ ':')).map (fun c => if c = '\\' then '_' else c)

/-- Join path fragments the way posix os.path.join does for relative
fragments (the only shapes create_backup produces). -/
def pathJoinChars (a b : Content) : Content :=
  if a = [] then b
  else if listEndsWith a ['/'] then a ++ b
  else a ++ '/' :: b

/-- join on a character, inverse of splitOnChar. -/
def joinChar (sep : Char) : List Content → Content
  | [] => []
  | [l] => l
  | l :: ls => l ++ sep :: joinChar sep ls

/-- The storage path create_backup computes:
backup_dir / sanitize(dirname(file_path)) / basename(file_path).timestamp.bak
(posix separators; drive colon and backslash sanitizing as in the source). -/
def backupPathFor (backup_dir file_path ts : String) : String :=
  let parts := splitOnChar '/' file_path.data
  let file_name : Content := parts.getLastD []
  let rel_path : Content := joinChar '/' parts.dropLast
  let backup_subdir := pathJoinChars backup_dir.data (sanitizeChars rel_path)
  let backup_name : Content := file_name ++ '.' :: ts.data ++ ('.' :: "bak".data)
  ⟨pathJoinChars backup_subdir backup_name⟩

/-- create_backup: raises FileNotFoundError when the path does not exist,
otherwise copies the live content to the computed backup path. -/
def create_backup (fs : FS) (backup_dir file_path ts : String) :
    Except String (String × FS) :=
  match fs file_path with
  | none => .error ("File not found: " ++ file_path)
  | some c =>
    let bp := backupPathFor backup_dir file_path ts
    .ok (bp, fsSet fs bp c)

/-- The write step of apply_edit together with the exception handler of its
try block: on success write the new content; if the write raises, the file
is left with whatever the interrupted write produced (env.garbled), the
error is recorded, and when a backup path was recorded and exists the
handler copies it back over the file and sets restored (unless that copy
itself raises, in which case the handler passes). -/
def writeStep (env : EditEnv) (r : EditResult) (fs : FS)
    (file_path : String) (new_content : Content) : EditResult × FS :=
  if env.writeThrows then
    match r.backup_path with
    | none =>
      (⟨r.success, r.backup_path, some env.writeErrMsg, r.validation,
          r.restored⟩,
        fsSet fs file_path env.garbled)
    | some bp =>
      match fsSet fs file_path env.garbled bp with
      | none =>
        (⟨r.success, r.backup_path, some env.writeErrMsg, r.validation,
            r.restored⟩,
          fsSet fs file_path env.garbled)
      | some bc =>
        if env.restoreThrows then
          (⟨r.success, r.backup_path, some env.writeErrMsg, r.validation,
              r.restored⟩,
            fsSet fs file_path env.garbled)
        else
          (⟨r.success, r.backup_path, some env.writeErrMsg, r.validation,
              true⟩,
            fsSet (fsSet fs file_path env.garbled) file_path bc)
  else
    (⟨true, r.backup_path, r.error, r.validation, r.restored⟩,
      fsSet fs file_path new_content)

/-- The body of apply_edit after the optional backup: the syntax gate for
.py files, then the write step. -/
def applyEditAfterBackup (pp : PyParse) (env : EditEnv) (r : EditResult)
    (fs : FS) (file_path : String) (new_content : Content) (validate : Bool) :
    EditResult × FS :=
  if validate && strEndsWith file_path ".py" then
    if (validate_python_src pp new_content).valid then
      writeStep env
        ⟨r.success, r.backup_path, r.error,
          some (validate_python_src pp new_content), r.restored⟩
        fs file_path new_content
    else
      (⟨r.success, r.backup_path,
          some ("Syntax validation failed: "
            ++ ((validate_python_src pp new_content).error.getD "None")),
          some (validate_python_src pp new_content), r.restored⟩,
        fs)
  else writeStep env r fs file_path new_content

/-- apply_edit(file_path, new_content, validate, create_backup): backup if
requested (a FileNotFoundError here is caught by the handler, which cannot
restore because no backup path was recorded), then validate for .py files,
then write, restoring from the backup if the write raises. -/
def apply_edit (pp : PyParse) (env : EditEnv) (backup_dir : String) (fs : FS)
    (file_path : String) (new_content : Content) (validate mk_backup : Bool) :
    EditResult × FS :=
  if mk_backup then
    match create_backup fs backup_dir file_path env.timestamp with
    | .error e => (⟨false, none, some e, none, false⟩, fs)
    | .ok (bp, fs1) =>
      applyEditAfterBackup pp env ⟨false, some bp, none, none, false⟩ fs1
        file_path new_content validate
  else applyEditAfterBackup pp env EditResult.init fs file_path new_content validate

/-- Result dictionary of the substring edit: like EditResult with the
changes_made key.  After result.update(edit_result) every shared key holds
the apply_edit value, so the final dictionary is the apply_edit result plus
changes_made. -/
structure PartialEditResult where
  success : Bool
  backup_path : Option String
  error : Option String
  changes_made : Bool
  validation : Option ValidationResult
  restored : Bool
deriving DecidableEq, Repr

/-- Substring replacement, apply_partial_edit in the source: read the file,
fail when the old code is absent, fail when the single replacement changes
nothing (which happens exactly when new equals old), otherwise funnel the
whole file replacement through apply_edit. -/
def apply_part_edit (pp : PyParse) (env : EditEnv) (backup_dir : String)
    (fs : FS) (file_path : String) (old_code new_code : Content)
    (validate mk_backup : Bool) : PartialEditResult × FS :=
  match fs file_path with
  | none =>
    (⟨false, none, some ("No such file or directory: " ++ file_path),
      false, none, false⟩, fs)
  | some current_content =>
    if occurs current_content old_code = false then
      (⟨false, none, some "Old code not found in file", false, none, false⟩, fs)
    else
      let new_content := replaceFirst current_content old_code new_code
      if new_content = current_content then
        (⟨false, none, some "No changes were made", false, none, false⟩, fs)
      else
        let (er, fs2) :=
          apply_edit pp env backup_dir fs file_path new_content validate mk_backup
        (⟨er.success, er.backup_path, er.error, true, er.validation, er.restored⟩,
          fs2)

/-- Line replacement, apply_line_edit in the source: readlines, bounds
check against [1, len(lines)], normalize the replacement to end with a
newline, join, funnel through apply_edit.  After result.update(edit_result)
the dictionary is exactly the apply_edit result. -/
def apply_line_edit (pp : PyParse) (env : EditEnv) (backup_dir : String)
    (fs : FS) (file_path : String) (line_number : Int) (new_line : Content)
    (validate mk_backup : Bool) : EditResult × FS :=
  match fs file_path with
  | none =>
    (⟨false, none, some ("No such file or directory: " ++ file_path),
      none, false⟩, fs)
  | some current =>
    let lines := readlines current
    if line_number < 1 || line_number > (lines.length : Int) then
      (⟨false, none, some ("Invalid line number: " ++ toString line_number
          ++ " (file has " ++ toString lines.length ++ " lines)"),
        none, false⟩, fs)
    else
      let norm := if listEndsWith new_line ['\n'] then new_line
                  else new_line ++ ['\n']
      let new_content := (lines.set (line_number - 1).toNat norm).flatten
      apply_edit pp env backup_dir fs file_path new_content validate mk_backup

/-- Function replacement, apply_function_edit in the source: read and parse
the file, scan ast.walk(tree) for the first node passing the FunctionDef
and name test, splice the new code over the lineno..end_lineno span of the
split(newline) line list, join and funnel through apply_edit.  A parse
error of the current content is caught by the handler as a plain error.
The source wraps the function name in single quote characters inside the
not found message; the quotes are elided here. -/
def apply_function_edit (pp : PyParse) (env : EditEnv) (backup_dir : String)
    (fs : FS) (file_path function_name : String) (new_function_code : Content)
    (validate mk_backup : Bool) : EditResult × FS :=
  match fs file_path with
  | none =>
    (⟨false, none, some ("No such file or directory: " ++ file_path),
      none, false⟩, fs)
  | some content =>
    match pp content with
    | .error e => (⟨false, none, some e.msg, none, false⟩, fs)
    | .ok tree =>
      match (walkBFS tree).find? (PyNode.isFnNamed function_name) with
      | none =>
        (⟨false, none, some ("Function " ++ function_name
            ++ " not found in file"), none, false⟩, fs)
      | some function_node =>
        let start_line := function_node.lineno
        let end_line := function_node.endLineno
        let lines := splitOnNl content
        let new_lines :=
          lines.take (start_line - 1) ++ [new_function_code]
            ++ lines.drop end_line
        let new_content := joinNl new_lines
        apply_edit pp env backup_dir fs file_path new_content validate mk_backup

/-- Result dictionary of compare_with_backup. -/
structure CompareResult where
  identical : Bool
  current_lines : Nat
  backup_lines : Nat
  size_difference : Int
  error : Option String
deriving DecidableEq, Repr

/-- compare_with_backup: read both files; identical is exact content
equality, line counts come from split(newline), size difference is the
length delta.  A read failure leaves the defaults and records an error. -/
def compare_with_backup (fs : FS) (file_path backup_path : String) :
    CompareResult :=
  match fs file_path with
  | none =>
    ⟨false, 0, 0, 0, some ("No such file or directory: " ++ file_path)⟩
  | some current_content =>
    match fs backup_path with
    | none =>
      ⟨false, 0, 0, 0, some ("No such file or directory: " ++ backup_path)⟩
    | some backup_content =>
      ⟨current_content = backup_content,
        (splitOnNl current_content).length,
        (splitOnNl backup_content).length,
        (current_content.length : Int) - (backup_content.length : Int),
        none⟩

/-!  The issue aggregator and ranker, src/issue_detector.py. -/

/-- The projection of one analyzer issue dictionary that get_issue_priority
reads: the severity value (absent on some synthetic entries), the line
value read as x.get(line, 0) (absent means 0), and a tag that stands for
the rest of the dictionary so distinct issues stay distinct. -/
structure PIssue where
  severity : Option String
  line : Option Nat
  tag : Nat
deriving DecidableEq, Repr

/-- One issue with its derived priority, the dictionary after the
priority key is added. -/
structure Ranked where
  issue : PIssue
  priority : Nat
deriving DecidableEq, Repr

/-- The issues dictionary produced by analyze_file, restricted to the three
lists get_issue_priority reads. -/
structure IssuesDict where
  pylint_issues : List PIssue
  complexity_issues : List PIssue
  maintainability_issues : List PIssue
deriving DecidableEq, Repr

/-- The merge get_issue_priority builds before sorting: pylint issues with
priority 3 on severity error and 2 otherwise, then complexity issues with
priority 2, then maintainability issues with priority 1. -/
def mergedIssues (d : IssuesDict) : List Ranked :=
  d.pylint_issues.map
      (fun i => ⟨i, if i.severity = some "error" then 3 else 2⟩)
    ++ d.complexity_issues.map (fun i => ⟨i, 2⟩)
    ++ d.maintainability_issues.map (fun i => ⟨i, 1⟩)

/-- The sort key x maps to under key=lambda x: (-x.priority, x.get(line,0)),
kept as a pair of naturals with the first component compared reversed. -/
def keyOf (r : Ranked) : Nat × Nat :=
  (r.priority, r.issue.line.getD 0)

/-- a sorts no later than b under the tuple key (-priority, line). -/
def keyLe (a b : Ranked) : Bool :=
  decide (b.priority < a.priority
    ∨ (a.priority = b.priority ∧ a.issue.line.getD 0 ≤ b.issue.line.getD 0))

/-- Insert x into an already sorted list, after every element that sorts no
later than x: the insertion step of a stable sort, so an element arriving
later never overtakes an equal key element already present. -/
def insertStable {α : Type} (le : α → α → Bool) (x : α) : List α → List α
  | [] => [x]
  | y :: ys => if le y x then y :: insertStable le x ys else x :: y :: ys

/-- Stable sort by repeated insertion, left to right.  list.sort in Python
is stable, and a stable sort under a total preorder is unique, so this has
the same result as the Timsort call in the source. -/
def sortStable {α : Type} (le : α → α → Bool) (l : List α) : List α :=
  l.foldl (fun acc x => insertStable le x acc) []

/-- get_issue_priority: merge the three lists with their priorities and
sort stably by (-priority, line). -/
def get_issue_priority (d : IssuesDict) : List Ranked :=
  sortStable keyLe (mergedIssues d)

/-!  The batch orchestrator loop, fix_repository in src/main.py.  The body
of the per issue iteration (context lookup, LLM call, apply_edit, logging)
is abstracted into one oracle returning the outcome for that issue:
applied (edit_result.success true), failed (edit_result.success false, or
an exception inside the try, both appended to fixes_failed), or skipped
(dry run, or the generator returned no code: appended to neither list). -/

inductive FixOutcome where
  | applied
  | failed
  | skipped
deriving DecidableEq, Repr

/-- One analyzed file with its ranked issue list. -/
structure FileIssues where
  file : String
  issues : List PIssue
deriving DecidableEq, Repr

/-- A record appended to fixes_applied or fixes_failed: the file path and
the tag of the issue. -/
abbrev FixRecord := String × Nat

/-- One iteration of the inner loop: dispatch on the outcome and append to
the matching list; a skip touches neither. -/
def fixInner (step : String → PIssue → FixOutcome) (fp : String)
    (st : List FixRecord × List FixRecord) (i : PIssue) :
    List FixRecord × List FixRecord :=
  match step fp i with
  | .applied => (st.1 ++ [(fp, i.tag)], st.2)
  | .failed => (st.1, st.2 ++ [(fp, i.tag)])
  | .skipped => st

/-- The two nested loops of fix_repository: every file, and for each file
only the first five issues of its ranked list (file_issues.issues[:5]). -/
def fixLoop (step : String → PIssue → FixOutcome) (files : List FileIssues) :
    List FixRecord × List FixRecord :=
  files.foldl
    (fun st fi => (fi.issues.take 5).foldl (fixInner step fi.file) st)
    ([], [])

/-- The dictionary fix_repository returns. -/
structure FixRunResult where
  fixes_applied : Nat
  fixes_failed : Nat
  success : Bool
deriving DecidableEq, Repr

/-- fix_repository after analysis: an early clean return when no issues
were found, otherwise the loop, with success true exactly when
len(fixes_failed) == 0. -/
def fix_repository_result (step : String → PIssue → FixOutcome)
    (files : List FileIssues) : FixRunResult :=
  if (files.map (fun fi => fi.issues.length)).sum = 0 then ⟨0, 0, true⟩
  else
    let st := fixLoop step files
    ⟨st.1.length, st.2.length, st.2.length == 0⟩

/-- The applied records the inner loop contributes for one file. -/
def appliedOf (step : String → PIssue → FixOutcome) (fi : FileIssues) :
    List FixRecord :=
  (fi.issues.take 5).filterMap
    (fun i => if step fi.file i = .applied then some (fi.file, i.tag) else none)

/-- The failed records the inner loop contributes for one file. -/
def failedOf (step : String → PIssue → FixOutcome) (fi : FileIssues) :
    List FixRecord :=
  (fi.issues.take 5).filterMap
    (fun i => if step fi.file i = .failed then some (fi.file, i.tag) else none)

/-!  Concrete fixtures used by the witness and counterexample theorems. -/

/-- An environment where neither the write nor the restore raises. -/
def envOk : EditEnv := ⟨"20240101_000000", false, "write failed", [], false⟩

/-- An environment where the write step raises mid way, leaving the target
file truncated, and the restore copy succeeds. -/
def envThrow : EditEnv := ⟨"20240101_000000", true, "disk full", [], false⟩

/-- A parser oracle under which every content is syntactically valid. -/
def ppAny : PyParse := fun _ => .ok []

/-- A parser oracle under which every content carries a syntax error. -/
def ppFail : PyParse := fun _ => .error ⟨"invalid syntax", some 1, some 1⟩

/-- A one file filesystem. -/
def fsA : FS := fun p => if p = "a.py" then some ("x = 1\n").data else none

/-- A filesystem for the substring and line edit witnesses. -/
def fsB : FS := fun p => if p = "b.py" then some ("x = 1\ny = 2\n").data else none

/-- The duplicated name source for the C3 counterexample:
line 1  def g():
line 2      def f():
line 3          return 1
line 4  def f():
line 5      return 2
The definition of f first in document order starts on line 2, nested inside
g; a second definition of f starts on line 4 at top level. -/
def exContentC3 : Content :=
  ("def g():\n    def f():\n        return 1\ndef f():\n    return 2").data

/-- ast.parse of exContentC3, restricted to the nodes the locator can see:
Module body = [g (lines 1..3, containing f lines 2..3), f (lines 4..5)].
ast.walk visits Module, g, f(4..5), then the children of g including
f(2..3): breadth first, so the shallow f on line 4 is reached before the
nested f on line 2 even though line 2 comes first in the document. -/
def exTreeC3 : List PyNode :=
  [ .functionDef "g" 1 3 [ .functionDef "f" 2 3 [] ],
    .functionDef "f" 4 5 [] ]

/-- Replacement text for the C3 counterexample. -/
def exNewFnC3 : Content := ("def f():\n    return 99").data

/-- Parser oracle for the C3 counterexample: exContentC3 parses to
exTreeC3, and every other content (in particular the spliced result) is
valid with an empty body. -/
def ppC3 : PyParse :=
  fun c => if c = exContentC3 then .ok exTreeC3 else .ok []

/-- Filesystem holding the C3 counterexample module. -/
def fsC3 : FS := fun p => if p = "m.py" then some exContentC3 else none

/-- A module whose only definition named f is an async def (C10):
line 1  async def f():
line 2      return 1
-/
def exTreeC10 : List PyNode :=
  [ .asyncFunctionDef "f" 1 2 [] ]

def exContentC10 : Content := ("async def f():\n    return 1").data

def ppC10 : PyParse :=
  fun c => if c = exContentC10 then .ok exTreeC10 else .ok []

def fsC10 : FS := fun p => if p = "n.py" then some exContentC10 else none

/-- The ranking example of the spec: a pylint error on line 5, a complexity
issue on line 5, a pylint warning on line 3. -/
def exD : IssuesDict :=
  ⟨ [⟨some "error", some 5, 0⟩, ⟨some "warning", some 3, 2⟩],
    [⟨some "warning", some 5, 1⟩],
    [] ⟩

/-- A two file batch for the C9 witness: seven issues on the first file
(only five may be addressed), one on the second. -/
def exFilesC9 : List FileIssues :=
  [ ⟨"a.py", [⟨none, some 1, 0⟩, ⟨none, some 2, 1⟩, ⟨none, some 3, 2⟩,
      ⟨none, some 4, 3⟩, ⟨none, some 5, 4⟩, ⟨none, some 6, 5⟩,
      ⟨none, some 7, 6⟩]⟩,
    ⟨"b.py", [⟨none, some 1, 7⟩]⟩ ]

/-- The step oracle for the C9 witness: the issue tagged 2 fails, the issue
tagged 4 is skipped, everything else is applied. -/
def exStepC9 : String → PIssue → FixOutcome :=
  fun _ i => if i.tag = 2 then .failed else if i.tag = 4 then .skipped
    else .applied

/-!  Helper lemmas: filesystem updates and the Python string helpers. -/

theorem fsSet_same (fs : FS) (p : String) (c : Content) :
    fsSet fs p c p = some c := by
  simp [fsSet]

theorem fsSet_other (fs : FS) (p q : String) (c : Content) (h : q ≠ p) :
    fsSet fs p c q = fs q := by
  simp [fsSet, h]

/-- A stored file survives storing at any path with the same content or a
different path: reading p after the write gives the old value when the
write went elsewhere, and the written value when it hit p. -/
theorem fsSet_read (fs : FS) (p q : String) (c : Content) :
    fsSet fs q c p = if p = q then some c else fs p := by
  simp [fsSet]

theorem leadsWith_iff (pat s : Content) :
    leadsWith pat s = true ↔ ∃ rest, s = pat ++ rest := by
  induction pat generalizing s with
  | nil => simp [leadsWith]
  | cons p ps ih =>
    cases s with
    | nil => simp [leadsWith]
    | cons c cs =>
      simp only [leadsWith, Bool.and_eq_true, decide_eq_true_eq, ih,
        List.cons_append, List.cons.injEq]
      constructor
      · rintro ⟨rfl, rest, rfl⟩
        exact ⟨rest, rfl, rfl⟩
      · rintro ⟨rest, rfl, rfl⟩
        exact ⟨rfl, rest, rfl⟩

theorem firstOccIdx_spec (pat : Content) :
    ∀ (s : Content) (i : Nat), firstOccIdx pat s = some i →
      leadsWith pat (s.drop i) = true
        ∧ ∀ j, j < i → leadsWith pat (s.drop j) = false := by
  intro s
  induction s with
  | nil =>
    intro i h
    simp only [firstOccIdx] at h
    by_cases hl : leadsWith pat [] = true
    · rw [if_pos hl] at h
      injection h with h
      subst h
      exact ⟨hl, fun j hj => absurd hj (by omega)⟩
    · rw [if_neg hl] at h
      simp at h
  | cons c t ih =>
    intro i h
    simp only [firstOccIdx] at h
    by_cases hl : leadsWith pat (c :: t) = true
    · rw [if_pos hl] at h
      injection h with h
      subst h
      exact ⟨hl, fun j hj => absurd hj (by omega)⟩
    · rw [if_neg hl] at h
      match hrec : firstOccIdx pat t with
      | none => rw [hrec] at h; simp at h
      | some i0 =>
        rw [hrec] at h
        simp only [Option.map_some'] at h
        injection h with h
        subst h
        obtain ⟨h1, h2⟩ := ih i0 hrec
        refine ⟨by simpa using h1, ?_⟩
        intro j hj
        cases j with
        | zero =>
          simpa using Bool.eq_false_iff.mpr hl
        | succ j0 =>
          have hj0 : j0 < i0 := by omega
          simpa using h2 j0 hj0

/-- Occurrence decomposition: if pat occurs first at index i, the content
splits as prefix, pat, suffix, with the prefix of length given by take. -/
theorem firstOccIdx_decomp (pat s : Content) (i : Nat)
    (h : firstOccIdx pat s = some i) :
    s = s.take i ++ pat ++ s.drop (i + pat.length) := by
  obtain ⟨h1, -⟩ := firstOccIdx_spec pat s i h
  obtain ⟨rest, hrest⟩ := (leadsWith_iff pat (s.drop i)).1 h1
  have hdec : s = s.take i ++ s.drop i := (List.take_append_drop i s).symm
  have hdrop : s.drop (i + pat.length) = rest := by
    have : s.drop (i + pat.length) = (s.drop i).drop pat.length := by
      rw [List.drop_drop]
    rw [this, hrest, List.drop_left]
  calc s = s.take i ++ s.drop i := hdec
    _ = s.take i ++ (pat ++ rest) := by rw [hrest]
    _ = s.take i ++ pat ++ s.drop (i + pat.length) := by
        rw [hdrop, List.append_assoc]

/-- Replacing an occurrence by itself changes nothing (the source of the
no changes were made branch). -/
theorem replaceFirst_self (s old : Content) :
    replaceFirst s old old = s := by
  unfold replaceFirst
  match h : firstOccIdx old s with
  | none => rfl
  | some i => exact (firstOccIdx_decomp old s i h).symm

/-- Replacing an occurrence by a different string always changes the
content, so the no op branch fires exactly when new equals old. -/
theorem replaceFirst_ne (s old new : Content) (i : Nat)
    (h : firstOccIdx old s = some i) (hne : new ≠ old) :
    replaceFirst s old new ≠ s := by
  have hval : replaceFirst s old new
      = s.take i ++ new ++ s.drop (i + old.length) := by
    simp [replaceFirst, h]
  rw [hval]
  intro heq
  have hs := firstOccIdx_decomp old s i h
  have h2 : s.take i ++ (new ++ s.drop (i + old.length))
      = s.take i ++ (old ++ s.drop (i + old.length)) := by
    rw [← List.append_assoc, heq, ← List.append_assoc]
    exact hs
  have h3 := List.append_cancel_left h2
  exact hne (List.append_cancel_right h3)

/-- readlines loses nothing: joining the lines gives back the content. -/
theorem readlines_flatten (c : Content) : (readlines c).flatten = c := by
  induction c with
  | nil => simp [readlines]
  | cons ch rest ih =>
    by_cases hc : ch = '\n'
    · subst hc
      simp [readlines, ih]
    · simp only [readlines, if_neg hc]
      match hr : readlines rest with
      | [] =>
        rw [hr] at ih
        simp at ih
        simp [← ih]
      | h :: t =>
        rw [hr] at ih
        simp only [List.flatten_cons] at ih ⊢
        simp [← List.append_assoc, ih]

theorem listEndsWith_append (a b suf : Content)
    (h : listEndsWith b suf = true) : listEndsWith (a ++ b) suf = true := by
  unfold listEndsWith at *
  obtain ⟨rest, hrest⟩ := (leadsWith_iff _ _).1 h
  refine (leadsWith_iff _ _).2 ⟨rest ++ a.reverse, ?_⟩
  rw [List.reverse_append, hrest, List.append_assoc]

theorem listEndsWith_self_append (x : Content) (c : Char) :
    listEndsWith (x ++ [c]) [c] = true := by
  unfold listEndsWith
  exact (leadsWith_iff _ _).2 ⟨x.reverse, by simp⟩

/-- The normalization of apply_line_edit always ends with a newline. -/
theorem lineNorm_endsWith (nl : Content) :
    listEndsWith (if listEndsWith nl ['\n'] then nl else nl ++ ['\n']) ['\n']
      = true := by
  by_cases h : listEndsWith nl ['\n'] = true
  · simp [h]
  · rw [if_neg h]
    exact listEndsWith_self_append nl '\n'

/-!  Helper lemmas on the breadth first traversal. -/

theorem countNodes_append (a b : List PyNode) :
    countNodes (a ++ b) = countNodes a + countNodes b := by
  induction a with
  | nil => simp [countNodes]
  | cons n rest ih =>
    have h1 : countNodes ((n :: rest) ++ b)
        = PyNode.count n + countNodes (rest ++ b) := rfl
    have h2 : countNodes (n :: rest) = PyNode.count n + countNodes rest := rfl
    rw [h1, h2, ih]
    omega

theorem count_eq_children (n : PyNode) :
    PyNode.count n = 1 + countNodes n.children := by
  cases n <;> simp [PyNode.count, PyNode.children]

theorem countNodes_cons (n : PyNode) (rest : List PyNode) :
    countNodes (n :: rest) = countNodes (rest ++ n.children) + 1 := by
  have h1 : countNodes (n :: rest) = PyNode.count n + countNodes rest := rfl
  rw [h1, countNodes_append, count_eq_children n]
  omega

theorem countNodes_bfs_lt (n : PyNode) (rest : List PyNode) :
    countNodes (rest ++ n.children) < countNodes (n :: rest) := by
  rw [countNodes_cons]
  omega

theorem walkBFSFuel_congr :
    ∀ (fuel : Nat) (q : List PyNode), countNodes q ≤ fuel →
      walkBFSFuel fuel q = walkBFSFuel (countNodes q) q := by
  intro fuel
  induction fuel with
  | zero =>
    intro q hq
    cases q with
    | nil => rfl
    | cons n rest =>
      exfalso
      have := countNodes_cons n rest
      omega
  | succ f ih =>
    intro q hq
    cases q with
    | nil => rfl
    | cons n rest =>
      rw [countNodes_cons]
      show n :: walkBFSFuel f (rest ++ n.children)
        = n :: walkBFSFuel (countNodes (rest ++ n.children)) (rest ++ n.children)
      have hle : countNodes (rest ++ n.children) ≤ f := by
        have := countNodes_cons n rest
        omega
      rw [ih (rest ++ n.children) hle]

theorem walkBFS_nil : walkBFS [] = [] := rfl

theorem walkBFS_cons (n : PyNode) (rest : List PyNode) :
    walkBFS (n :: rest) = n :: walkBFS (rest ++ n.children) := by
  unfold walkBFS
  rw [countNodes_cons]
  rfl

/-- ast.walk yields exactly the nodes of the trees in its queue: membership
in the breadth first enumeration coincides with membership in some tree. -/
theorem walkBFS_mem_iff (q : List PyNode) (x : PyNode) :
    x ∈ walkBFS q ↔ ∃ n, n ∈ q ∧ InTree x n := by
  match q with
  | [] =>
    rw [walkBFS_nil]
    simp
  | n :: rest =>
    have ih := walkBFS_mem_iff (rest ++ n.children) x
    rw [walkBFS_cons]
    simp only [List.mem_cons, List.mem_append] at *
    constructor
    · rintro (h | hmem)
      · exact ⟨n, Or.inl rfl, by rw [h]; exact InTree.refl n⟩
      · obtain ⟨m, hm | hm, hxm⟩ := ih.1 hmem
        · exact ⟨m, Or.inr hm, hxm⟩
        · exact ⟨n, Or.inl rfl, InTree.child hm hxm⟩
    · rintro ⟨m, hm | hm, hxm⟩
      · subst hm
        cases hxm with
        | refl => exact Or.inl rfl
        | child hy hz => exact Or.inr (ih.2 ⟨_, Or.inr hy, hz⟩)
      · exact Or.inr (ih.2 ⟨m, Or.inl hm, hxm⟩)
termination_by countNodes q
decreasing_by
  apply countNodes_bfs_lt

/-- find? returns the first element passing the test: the list splits into
a clean prefix, the hit, and a remainder. -/
theorem find?_first {α : Type} (p : α → Bool) :
    ∀ (l : List α) (a : α), l.find? p = some a →
      p a = true
        ∧ ∃ pre post, l = pre ++ a :: post ∧ ∀ y ∈ pre, p y = false := by
  intro l
  induction l with
  | nil => intro a h; simp at h
  | cons hd tl ih =>
    intro a h
    by_cases hp : p hd = true
    · rw [List.find?_cons_of_pos _ hp] at h
      injection h with h
      subst h
      exact ⟨hp, [], tl, rfl, by simp⟩
    · have hp2 : p hd = false := Bool.eq_false_iff.mpr hp
      rw [List.find?_cons_of_neg _ hp] at h
      obtain ⟨ha, pre, post, hsplit, hclean⟩ := ih a h
      refine ⟨ha, hd :: pre, post, by simp [hsplit], ?_⟩
      intro y hy
      rcases List.mem_cons.mp hy with rfl | hy2
      · exact hp2
      · exact hclean y hy2

/-!  Helper lemmas on the stable insertion sort and the ranking key. -/

theorem keyLe_total (a b : Ranked) : keyLe a b = true ∨ keyLe b a = true := by
  simp only [keyLe, decide_eq_true_eq]
  omega

theorem keyLe_trans (a b c : Ranked) (h1 : keyLe a b = true)
    (h2 : keyLe b c = true) : keyLe a c = true := by
  simp only [keyLe, decide_eq_true_eq] at *
  omega

theorem keyLe_of_keyOf_eq (a b : Ranked) (h : keyOf a = keyOf b) :
    keyLe a b = true := by
  simp only [keyOf, Prod.mk.injEq] at h
  simp only [keyLe, decide_eq_true_eq]
  omega

theorem insertStable_perm (x : Ranked) (l : List Ranked) :
    List.Perm (insertStable keyLe x l) (x :: l) := by
  induction l with
  | nil => exact List.Perm.refl _
  | cons y ys ih =>
    simp only [insertStable]
    by_cases h : keyLe y x = true
    · rw [if_pos h]
      exact (ih.cons y).trans (List.Perm.swap x y ys)
    · rw [if_neg h]

theorem insertStable_sorted (x : Ranked) (l : List Ranked)
    (h : l.Pairwise (fun a b => keyLe a b = true)) :
    (insertStable keyLe x l).Pairwise (fun a b => keyLe a b = true) := by
  induction l with
  | nil => simp [insertStable]
  | cons y ys ih =>
    rw [List.pairwise_cons] at h
    obtain ⟨hy, hys⟩ := h
    simp only [insertStable]
    by_cases hle : keyLe y x = true
    · rw [if_pos hle, List.pairwise_cons]
      refine ⟨?_, ih hys⟩
      intro z hz
      have hmem : z ∈ x :: ys := (insertStable_perm x ys).subset hz
      rcases List.mem_cons.mp hmem with rfl | hz2
      · exact hle
      · exact hy z hz2
    · rw [if_neg hle]
      have hxy : keyLe x y = true := (keyLe_total x y).resolve_right hle
      rw [List.pairwise_cons]
      refine ⟨?_, List.pairwise_cons.mpr ⟨hy, hys⟩⟩
      intro z hz
      rcases List.mem_cons.mp hz with rfl | hz2
      · exact hxy
      · exact keyLe_trans x y z hxy (hy z hz2)

theorem insertStable_filter (k : Nat × Nat) (x : Ranked) (l : List Ranked)
    (hs : l.Pairwise (fun a b => keyLe a b = true)) :
    (insertStable keyLe x l).filter (fun r => decide (keyOf r = k))
      = if keyOf x = k
        then l.filter (fun r => decide (keyOf r = k)) ++ [x]
        else l.filter (fun r => decide (keyOf r = k)) := by
  induction l with
  | nil =>
    by_cases h : keyOf x = k <;> simp [insertStable, h]
  | cons y ys ih =>
    rw [List.pairwise_cons] at hs
    obtain ⟨hy, hys⟩ := hs
    simp only [insertStable]
    by_cases hle : keyLe y x = true
    · rw [if_pos hle]
      by_cases hky : keyOf y = k
      · simp only [List.filter_cons, hky, decide_eq_true_eq, if_pos, ih hys]
        by_cases hkx : keyOf x = k <;> simp [hkx, hky]
      · simp only [List.filter_cons, decide_eq_true_eq, if_neg hky, ih hys]
    · rw [if_neg hle]
      by_cases hkx : keyOf x = k
      · have hfil : (y :: ys).filter (fun r => decide (keyOf r = k)) = [] := by
          rw [List.filter_eq_nil_iff]
          intro z hz
          simp only [decide_eq_true_eq]
          intro hkz
          have hzx : keyLe z x = true :=
            keyLe_of_keyOf_eq z x (by rw [hkz, hkx])
          rcases List.mem_cons.mp hz with rfl | hz2
          · exact hle hzx
          · exact hle (keyLe_trans y z x (hy z hz2) hzx)
        rw [if_pos hkx, hfil]
        simp [List.filter_cons, hkx, hfil]
      · rw [if_neg hkx]
        simp [List.filter_cons, hkx]

/-- Invariant of the sorting fold: starting from a sorted accumulator, the
fold stays sorted, permutes the accumulator and the processed input, and
preserves the equal key sublists in order (stability). -/
theorem sortFold_spec (k : Nat × Nat) :
    ∀ (l acc : List Ranked),
      acc.Pairwise (fun a b => keyLe a b = true) →
      (l.foldl (fun a x => insertStable keyLe x a) acc).Pairwise
          (fun a b => keyLe a b = true)
        ∧ List.Perm (l.foldl (fun a x => insertStable keyLe x a) acc) (acc ++ l)
        ∧ (l.foldl (fun a x => insertStable keyLe x a) acc).filter
              (fun r => decide (keyOf r = k))
            = acc.filter (fun r => decide (keyOf r = k))
              ++ l.filter (fun r => decide (keyOf r = k)) := by
  intro l
  induction l with
  | nil =>
    intro acc hacc
    exact ⟨hacc, by simp, by simp⟩
  | cons x xs ih =>
    intro acc hacc
    rw [List.foldl_cons]
    obtain ⟨ihs, ihp, ihf⟩ := ih (insertStable keyLe x acc)
      (insertStable_sorted x acc hacc)
    refine ⟨ihs, ?_, ?_⟩
    · have h1 : List.Perm (insertStable keyLe x acc ++ xs) ((x :: acc) ++ xs) :=
        List.Perm.append_right xs (insertStable_perm x acc)
      have h2 : List.Perm (x :: (acc ++ xs)) (acc ++ x :: xs) :=
        List.perm_middle.symm
      exact (ihp.trans h1).trans h2
    · rw [ihf, insertStable_filter k x acc hacc]
      by_cases hkx : keyOf x = k
      · rw [if_pos hkx]
        simp [List.filter_cons, hkx, List.append_assoc]
      · rw [if_neg hkx]
        simp [List.filter_cons, hkx]

/-!  Helper lemmas on the orchestrator loops. -/

theorem innerFold_spec (step : String → PIssue → FixOutcome) (fp : String) :
    ∀ (l : List PIssue) (st : List FixRecord × List FixRecord),
      l.foldl (fixInner step fp) st
        = (st.1 ++ l.filterMap
            (fun i => if step fp i = .applied then some (fp, i.tag) else none),
           st.2 ++ l.filterMap
            (fun i => if step fp i = .failed then some (fp, i.tag) else none)) := by
  intro l
  induction l with
  | nil => intro st; simp
  | cons i is ih =>
    intro st
    rw [List.foldl_cons, ih]
    simp only [List.filterMap_cons]
    match hstep : step fp i with
    | .applied => simp [fixInner, hstep]
    | .failed => simp [fixInner, hstep]
    | .skipped => simp [fixInner, hstep]

theorem fixLoop_spec (step : String → PIssue → FixOutcome)
    (files : List FileIssues) :
    fixLoop step files
      = ((files.map (appliedOf step)).flatten,
         (files.map (failedOf step)).flatten) := by
  suffices h : ∀ (fs : List FileIssues) (st : List FixRecord × List FixRecord),
      fs.foldl (fun st fi => (fi.issues.take 5).foldl (fixInner step fi.file) st) st
        = (st.1 ++ (fs.map (appliedOf step)).flatten,
           st.2 ++ (fs.map (failedOf step)).flatten) by
    have := h files ([], [])
    simpa [fixLoop] using this
  intro fs
  induction fs with
  | nil => intro st; simp
  | cons fi fis ih =>
    intro st
    rw [List.foldl_cons, innerFold_spec step fi.file, ih]
    simp [appliedOf, failedOf, List.append_assoc]

/-!  Helper lemmas on the core apply routine. -/

/-- When the proposed content fails the syntax gate of a structured source
file, applyEditAfterBackup records the validation outcome and the error and
returns the filesystem untouched. -/
theorem afterBackup_validation_fail (pp : PyParse) (env : EditEnv)
    (r : EditResult) (fs : FS) (p : String) (nc : Content) (e : PyErrInfo)
    (hpy : strEndsWith p ".py" = true) (hparse : pp nc = .error e) :
    applyEditAfterBackup pp env r fs p nc true
      = (⟨r.success, r.backup_path,
            some ("Syntax validation failed: " ++ e.msg),
            some ⟨false, some e.msg, e.line, e.offset⟩, r.restored⟩, fs) := by
  simp [applyEditAfterBackup, hpy, validate_python_src, hparse]

/-- When validation passes (or is off) and the write does not raise,
applyEditAfterBackup reports success and writes the new content. -/
theorem afterBackup_write_ok (pp : PyParse) (env : EditEnv) (r : EditResult)
    (fs : FS) (p : String) (nc : Content) (validate : Bool)
    (hval : validate = true → strEndsWith p ".py" = true → ∃ t, pp nc = .ok t)
    (hw : env.writeThrows = false) :
    (applyEditAfterBackup pp env r fs p nc validate).1.success = true
      ∧ (applyEditAfterBackup pp env r fs p nc validate).1.backup_path
          = r.backup_path
      ∧ (applyEditAfterBackup pp env r fs p nc validate).1.restored = r.restored
      ∧ (applyEditAfterBackup pp env r fs p nc validate).2 = fsSet fs p nc := by
  by_cases hv : (validate && strEndsWith p ".py") = true
  · obtain ⟨hv1, hv2⟩ := Bool.and_eq_true_iff.mp hv
    obtain ⟨t, ht⟩ := hval hv1 hv2
    simp [applyEditAfterBackup, hv, validate_python_src, ht, writeStep, hw]
  · simp [applyEditAfterBackup, hv, writeStep, hw]

/-- When the file exists (whenever a backup is requested), validation
passes (or is off) and the write does not raise, apply_edit succeeds and
the target file carries the new content. -/
theorem apply_edit_ok (pp : PyParse) (env : EditEnv) (bd : String) (fs : FS)
    (p : String) (nc : Content) (validate mkb : Bool)
    (hex : mkb = true → (fs p).isSome)
    (hval : validate = true → strEndsWith p ".py" = true → ∃ t, pp nc = .ok t)
    (hw : env.writeThrows = false) :
    (apply_edit pp env bd fs p nc validate mkb).1.success = true
      ∧ (apply_edit pp env bd fs p nc validate mkb).2 p = some nc := by
  cases mkb with
  | false =>
    simp only [apply_edit, if_neg (by simp : ¬ (false = true))]
    obtain ⟨hs, -, -, hfs⟩ :=
      afterBackup_write_ok pp env EditResult.init fs p nc validate hval hw
    exact ⟨hs, by rw [hfs]; exact fsSet_same fs p nc⟩
  | true =>
    obtain ⟨c, hc⟩ := Option.isSome_iff_exists.mp (hex rfl)
    have hcb : create_backup fs bd p env.timestamp
        = .ok (backupPathFor bd p env.timestamp,
            fsSet fs (backupPathFor bd p env.timestamp) c) := by
      simp [create_backup, hc]
    have h1 : apply_edit pp env bd fs p nc validate true
        = applyEditAfterBackup pp env
            ⟨false, some (backupPathFor bd p env.timestamp), none, none, false⟩
            (fsSet fs (backupPathFor bd p env.timestamp) c) p nc validate := by
      simp [apply_edit, hcb]
    rw [h1]
    obtain ⟨hs, -, -, hfs⟩ :=
      afterBackup_write_ok pp env
        ⟨false, some (backupPathFor bd p env.timestamp), none, none, false⟩
        (fsSet fs (backupPathFor bd p env.timestamp) c) p nc validate hval hw
    exact ⟨hs, by rw [hfs]; exact fsSet_same _ p nc⟩

/-!  Claim theorems. -/

/-- C8: for every existing file, create_backup followed immediately by
compare_with_backup on the returned reference reports identical true (the
backup is byte identical to the live file at creation); for a missing path
create_backup fails with a not found error. -/
theorem C8_create_then_compare (fs : FS) (bd p ts : String) :
    (∀ c, fs p = some c →
      ∃ bp fs1, create_backup fs bd p ts = .ok (bp, fs1)
        ∧ (compare_with_backup fs1 p bp).identical = true
        ∧ fs1 bp = some c)
    ∧ (fs p = none →
        create_backup fs bd p ts = .error ("File not found: " ++ p)) := by
  constructor
  · intro c hc
    refine ⟨backupPathFor bd p ts, fsSet fs (backupPathFor bd p ts) c,
      by simp [create_backup, hc], ?_, fsSet_same _ _ _⟩
    have hbp : fsSet fs (backupPathFor bd p ts) c (backupPathFor bd p ts)
        = some c := fsSet_same _ _ _
    have hp : fsSet fs (backupPathFor bd p ts) c p = some c := by
      rw [fsSet_read]
      split
      · rfl
      · exact hc
    simp [compare_with_backup, hp, hbp]
  · intro hn
    simp [create_backup, hn]

/-- C8 witness: on the one file system, creating a backup of a.py and
comparing immediately reports identical. -/
theorem C8_create_then_compare_witness :
    fsA "a.py" = some (("x = 1\n").data)
    ∧ ∃ bp fs1,
        create_backup fsA "backups" "a.py" "20240101_000000" = .ok (bp, fs1)
        ∧ (compare_with_backup fs1 "a.py" bp).identical = true
        ∧ fs1 bp = some (("x = 1\n").data) :=
  ⟨rfl, (C8_create_then_compare fsA "backups" "a.py" "20240101_000000").1
    (("x = 1\n").data) rfl⟩

/-- C1: an apply_edit call on a .py file with validation on, whose new
content fails to parse, returns failure carrying the syntax error detail,
and the target file content is unchanged (no write on validation
failure). -/
theorem C1_validation_fail_no_write (pp : PyParse) (env : EditEnv)
    (bd : String) (fs : FS) (p : String) (nc : Content) (mkb : Bool)
    (e : PyErrInfo)
    (hpy : strEndsWith p ".py" = true)
    (hparse : pp nc = .error e)
    (hex : mkb = true → (fs p).isSome) :
    (apply_edit pp env bd fs p nc true mkb).1.success = false
      ∧ (apply_edit pp env bd fs p nc true mkb).1.error
          = some ("Syntax validation failed: " ++ e.msg)
      ∧ (apply_edit pp env bd fs p nc true mkb).1.validation
          = some ⟨false, some e.msg, e.line, e.offset⟩
      ∧ (apply_edit pp env bd fs p nc true mkb).2 p = fs p := by
  cases mkb with
  | false =>
    simp only [apply_edit, if_neg (by simp : ¬ (false = true))]
    rw [afterBackup_validation_fail pp env EditResult.init fs p nc e hpy hparse]
    simp [EditResult.init]
  | true =>
    obtain ⟨c, hc⟩ := Option.isSome_iff_exists.mp (hex rfl)
    have hcb : create_backup fs bd p env.timestamp
        = .ok (backupPathFor bd p env.timestamp,
            fsSet fs (backupPathFor bd p env.timestamp) c) := by
      simp [create_backup, hc]
    have h1 : apply_edit pp env bd fs p nc true true
        = applyEditAfterBackup pp env
            ⟨false, some (backupPathFor bd p env.timestamp), none, none, false⟩
            (fsSet fs (backupPathFor bd p env.timestamp) c) p nc true := by
      simp [apply_edit, hcb]
    rw [h1, afterBackup_validation_fail pp env _ _ p nc e hpy hparse]
    refine ⟨rfl, rfl, rfl, ?_⟩
    show fsSet fs (backupPathFor bd p env.timestamp) c p = fs p
    rw [fsSet_read]
    split
    · exact hc.symm
    · rfl

/-- C1 witness: on a.py with an always failing parser, the edit fails with
the syntax detail and the file keeps its old content. -/
theorem C1_validation_fail_no_write_witness :
    strEndsWith "a.py" ".py" = true
    ∧ ppFail (("x = 2\n").data) = .error ⟨"invalid syntax", some 1, some 1⟩
    ∧ ((apply_edit ppFail envOk "backups" fsA "a.py" (("x = 2\n").data)
          true true).1.success = false
      ∧ (apply_edit ppFail envOk "backups" fsA "a.py" (("x = 2\n").data)
          true true).1.error
          = some ("Syntax validation failed: " ++ "invalid syntax")
      ∧ (apply_edit ppFail envOk "backups" fsA "a.py" (("x = 2\n").data)
          true true).1.validation
          = some ⟨false, some "invalid syntax", some 1, some 1⟩
      ∧ (apply_edit ppFail envOk "backups" fsA "a.py" (("x = 2\n").data)
          true true).2 "a.py" = fsA "a.py") :=
  ⟨by decide, rfl,
    C1_validation_fail_no_write ppFail envOk "backups" fsA "a.py"
      (("x = 2\n").data) true ⟨"invalid syntax", some 1, some 1⟩
      (by decide) rfl (fun _ => by decide)⟩

/-- C6: with a backup requested on an existing file, apply_edit backs up
before validating, so the backup exists on disk and is reported in the
result even when the edit is rejected by the validation gate; having a
backup does not imply the edit was applied. -/
theorem C6_backup_before_validation (pp : PyParse) (env : EditEnv)
    (bd : String) (fs : FS) (p : String) (nc c : Content) (e : PyErrInfo)
    (hc : fs p = some c) (hpy : strEndsWith p ".py" = true)
    (hparse : pp nc = .error e) :
    (apply_edit pp env bd fs p nc true true).1.backup_path
        = some (backupPathFor bd p env.timestamp)
      ∧ (apply_edit pp env bd fs p nc true true).2
          (backupPathFor bd p env.timestamp) = some c
      ∧ (apply_edit pp env bd fs p nc true true).1.success = false
      ∧ (apply_edit pp env bd fs p nc true true).2 p = some c := by
  have hcb : create_backup fs bd p env.timestamp
      = .ok (backupPathFor bd p env.timestamp,
          fsSet fs (backupPathFor bd p env.timestamp) c) := by
    simp [create_backup, hc]
  have h1 : apply_edit pp env bd fs p nc true true
      = applyEditAfterBackup pp env
          ⟨false, some (backupPathFor bd p env.timestamp), none, none, false⟩
          (fsSet fs (backupPathFor bd p env.timestamp) c) p nc true := by
    simp [apply_edit, hcb]
  rw [h1, afterBackup_validation_fail pp env _ _ p nc e hpy hparse]
  refine ⟨rfl, fsSet_same _ _ _, rfl, ?_⟩
  show fsSet fs (backupPathFor bd p env.timestamp) c p = some c
  rw [fsSet_read]
  split
  · rfl
  · exact hc

/-- C6 witness: concrete rejected edit that still reports and stores a
backup. -/
theorem C6_backup_before_validation_witness :
    fsA "a.py" = some (("x = 1\n").data)
    ∧ ((apply_edit ppFail envOk "backups" fsA "a.py" (("x = 2\n").data)
          true true).1.backup_path
        = some (backupPathFor "backups" "a.py" envOk.timestamp)
      ∧ (apply_edit ppFail envOk "backups" fsA "a.py" (("x = 2\n").data)
          true true).2 (backupPathFor "backups" "a.py" envOk.timestamp)
          = some (("x = 1\n").data)
      ∧ (apply_edit ppFail envOk "backups" fsA "a.py" (("x = 2\n").data)
          true true).1.success = false
      ∧ (apply_edit ppFail envOk "backups" fsA "a.py" (("x = 2\n").data)
          true true).2 "a.py" = some (("x = 1\n").data)) :=
  ⟨rfl, C6_backup_before_validation ppFail envOk "backups" fsA "a.py"
    (("x = 2\n").data) (("x = 1\n").data) ⟨"invalid syntax", some 1, some 1⟩
    rfl (by decide) rfl⟩

/-- The write step never changes which backup path the result reports. -/
theorem writeStep_backup_path (env : EditEnv) (r : EditResult) (fs : FS)
    (p : String) (nc : Content) :
    (writeStep env r fs p nc).1.backup_path = r.backup_path := by
  by_cases hw : env.writeThrows = true
  · match hbp : r.backup_path with
    | none => simp [writeStep, hw, hbp]
    | some bp =>
      match hbc : fsSet fs p env.garbled bp with
      | none => simp [writeStep, hw, hbp, hbc]
      | some bc =>
        by_cases hrt : env.restoreThrows = true
        · simp [writeStep, hw, hbp, hbc, hrt]
        · simp [writeStep, hw, hbp, hbc, hrt]
  · simp [writeStep, hw]

/-- Nor does the validation gate. -/
theorem afterBackup_backup_path (pp : PyParse) (env : EditEnv)
    (r : EditResult) (fs : FS) (p : String) (nc : Content) (validate : Bool) :
    (applyEditAfterBackup pp env r fs p nc validate).1.backup_path
      = r.backup_path := by
  by_cases hv : (validate && strEndsWith p ".py") = true
  · by_cases hvalid : (validate_python_src pp nc).valid = true
    · simp only [applyEditAfterBackup, hv, if_true, hvalid]
      exact writeStep_backup_path env _ fs p nc
    · simp [applyEditAfterBackup, hv, hvalid]
  · simp only [applyEditAfterBackup, hv, Bool.false_eq_true, if_false]
    exact writeStep_backup_path env r fs p nc

/-- The restored flag comes only out of the write step raising with a
recorded, existing backup; when the backup path differs from the target,
the target is put back to the backup content. -/
theorem writeStep_restored (env : EditEnv) (r : EditResult) (fs : FS)
    (p : String) (nc : Content) (hr : r.restored = false) :
    (writeStep env r fs p nc).1.restored = true →
      env.writeThrows = true
      ∧ ∃ bp, r.backup_path = some bp
          ∧ (bp ≠ p → (writeStep env r fs p nc).2 p = fs bp) := by
  intro hres
  by_cases hw : env.writeThrows = true
  · refine ⟨hw, ?_⟩
    match hbp : r.backup_path with
    | none =>
      simp only [writeStep, hw, if_true, hbp] at hres
      simp [hr] at hres
    | some bp =>
      refine ⟨bp, rfl, ?_⟩
      intro hne
      match hbc : fsSet fs p env.garbled bp with
      | none =>
        simp only [writeStep, hw, if_true, hbp, hbc] at hres
        simp [hr] at hres
      | some bc =>
        by_cases hrt : env.restoreThrows = true
        · simp only [writeStep, hw, if_true, hbp, hbc, hrt] at hres
          simp [hr] at hres
        · simp only [writeStep, hw, if_true, hbp, hbc, hrt,
            Bool.false_eq_true, if_false]
          show fsSet (fsSet fs p env.garbled) p bc p = fs bp
          rw [fsSet_same]
          have hb2 := hbc
          rw [fsSet_read, if_neg hne] at hb2
          exact hb2.symm
  · simp only [writeStep, hw, Bool.false_eq_true, if_false] at hres
    simp [hr] at hres

/-- Lifting writeStep_restored through the validation gate. -/
theorem afterBackup_restored (pp : PyParse) (env : EditEnv) (r : EditResult)
    (fs : FS) (p : String) (nc : Content) (validate : Bool)
    (hr : r.restored = false) :
    (applyEditAfterBackup pp env r fs p nc validate).1.restored = true →
      env.writeThrows = true
      ∧ ∃ bp, r.backup_path = some bp
          ∧ (bp ≠ p →
              (applyEditAfterBackup pp env r fs p nc validate).2 p = fs bp) := by
  intro hres
  unfold applyEditAfterBackup at hres ⊢
  by_cases hv : (validate && strEndsWith p ".py") = true
  · rw [if_pos hv] at hres ⊢
    by_cases hvalid : (validate_python_src pp nc).valid = true
    · rw [if_pos hvalid] at hres ⊢
      exact writeStep_restored env
        ⟨r.success, r.backup_path, r.error,
          some (validate_python_src pp nc), r.restored⟩
        fs p nc hr hres
    · rw [if_neg hvalid] at hres
      simp [hr] at hres
  · rw [if_neg hv] at hres ⊢
    exact writeStep_restored env r fs p nc hr hres

/-- C7: a rollback (restored true) happens only when the write step raises
after a backup was recorded, in which case (for a backup stored away from
the target) the file is back to its pre call content; a validation failure
alone never triggers a restore and leaves the target untouched. -/
theorem C7_rollback_only_on_write_throw (pp : PyParse) (env : EditEnv)
    (bd : String) (fs : FS) (p : String) (nc : Content) (validate mkb : Bool) :
    ((apply_edit pp env bd fs p nc validate mkb).1.restored = true →
        env.writeThrows = true
        ∧ ∃ bp, (apply_edit pp env bd fs p nc validate mkb).1.backup_path
              = some bp
            ∧ (bp ≠ p →
                (apply_edit pp env bd fs p nc validate mkb).2 p = fs p))
    ∧ (∀ e, validate = true → strEndsWith p ".py" = true →
        pp nc = .error e →
        (apply_edit pp env bd fs p nc validate mkb).1.restored = false
        ∧ (apply_edit pp env bd fs p nc validate mkb).2 p = fs p) := by
  cases mkb with
  | false =>
    have h0 : apply_edit pp env bd fs p nc validate false
        = applyEditAfterBackup pp env EditResult.init fs p nc validate := by
      simp [apply_edit]
    constructor
    · intro hres
      rw [h0] at hres
      obtain ⟨hw, bp, hbp, -⟩ :=
        afterBackup_restored pp env EditResult.init fs p nc validate rfl hres
      exact absurd hbp (by simp [EditResult.init])
    · intro e hval hpy hparse
      subst hval
      rw [h0, afterBackup_validation_fail pp env _ _ p nc e hpy hparse]
      exact ⟨rfl, rfl⟩
  | true =>
    match hc : fs p with
    | none =>
      have hcb : create_backup fs bd p env.timestamp
          = .error ("File not found: " ++ p) := by
        simp [create_backup, hc]
      have h0 : apply_edit pp env bd fs p nc validate true
          = (⟨false, none, some ("File not found: " ++ p), none, false⟩,
              fs) := by
        simp [apply_edit, hcb]
      rw [h0]
      constructor
      · intro hres
        simp at hres
      · intro e hval hpy hparse
        exact ⟨rfl, hc⟩
    | some c =>
      have hcb : create_backup fs bd p env.timestamp
          = .ok (backupPathFor bd p env.timestamp,
              fsSet fs (backupPathFor bd p env.timestamp) c) := by
        simp [create_backup, hc]
      have h0 : apply_edit pp env bd fs p nc validate true
          = applyEditAfterBackup pp env
              ⟨false, some (backupPathFor bd p env.timestamp), none, none,
                false⟩
              (fsSet fs (backupPathFor bd p env.timestamp) c) p nc
              validate := by
        simp [apply_edit, hcb]
      constructor
      · intro hres
        rw [h0] at hres ⊢
        obtain ⟨hw, bp, hbp, hrest⟩ :=
          afterBackup_restored pp env _ _ p nc validate rfl hres
        refine ⟨hw, bp, ?_, ?_⟩
        · rw [afterBackup_backup_path]
          exact hbp
        · intro hne
          rw [hrest hne]
          have hbp2 : backupPathFor bd p env.timestamp = bp := by
            simpa using hbp
          rw [← hbp2, fsSet_same]
      · intro e hval hpy hparse
        subst hval
        rw [h0, afterBackup_validation_fail pp env _ _ p nc e hpy hparse]
        refine ⟨rfl, ?_⟩
        show fsSet fs (backupPathFor bd p env.timestamp) c p = some c
        rw [fsSet_read]
        split
        · rfl
        · exact hc

/-- C7 witness: a concrete throwing write restores the file, and a
concrete validation failure sets no restored flag and leaves the file. -/
theorem C7_rollback_only_on_write_throw_witness :
    (envThrow.writeThrows = true
      ∧ ∃ bp, (apply_edit ppAny envThrow "backups" fsA "a.py"
            (("y = 3\n").data) true true).1.backup_path = some bp
          ∧ (bp ≠ "a.py" →
              (apply_edit ppAny envThrow "backups" fsA "a.py"
                (("y = 3\n").data) true true).2 "a.py" = fsA "a.py"))
    ∧ ((apply_edit ppFail envOk "backups" fsA "a.py" (("y = 3\n").data)
          true true).1.restored = false
      ∧ (apply_edit ppFail envOk "backups" fsA "a.py" (("y = 3\n").data)
          true true).2 "a.py" = fsA "a.py") :=
  ⟨(C7_rollback_only_on_write_throw ppAny envThrow "backups" fsA "a.py"
      (("y = 3\n").data) true true).1 (by decide),
   (C7_rollback_only_on_write_throw ppFail envOk "backups" fsA "a.py"
      (("y = 3\n").data) true true).2 ⟨"invalid syntax", some 1, some 1⟩
      rfl (by decide) rfl⟩

/-- C2: the substring edit fails with a pattern not found error when the
old code is absent, fails with a no op error when the replacement is byte
identical to the old code, and otherwise (when the funneled whole file
apply goes through) rewrites exactly the first occurrence of old, leaving
all surrounding bytes unchanged. -/
theorem C2_partial_edit (pp : PyParse) (env : EditEnv) (bd : String)
    (fs : FS) (p : String) (old new : Content) (validate mkb : Bool)
    (cur : Content) (hcur : fs p = some cur) :
    (occurs cur old = false →
      (apply_part_edit pp env bd fs p old new validate mkb).1.error
          = some "Old code not found in file"
        ∧ (apply_part_edit pp env bd fs p old new validate mkb).2 = fs)
    ∧ (occurs cur old = true → new = old →
      (apply_part_edit pp env bd fs p old new validate mkb).1.error
          = some "No changes were made"
        ∧ (apply_part_edit pp env bd fs p old new validate mkb).2 = fs)
    ∧ (∀ i, firstOccIdx old cur = some i → new ≠ old →
        (validate = true → strEndsWith p ".py" = true →
          ∃ t, pp (replaceFirst cur old new) = .ok t) →
        env.writeThrows = false →
        (apply_part_edit pp env bd fs p old new validate mkb).1.success = true
          ∧ (apply_part_edit pp env bd fs p old new
              validate mkb).1.changes_made = true
          ∧ (apply_part_edit pp env bd fs p old new validate mkb).2 p
              = some (cur.take i ++ new ++ cur.drop (i + old.length))
          ∧ cur = cur.take i ++ old ++ cur.drop (i + old.length)
          ∧ (∀ j, j < i → leadsWith old (cur.drop j) = false)) := by
  refine ⟨?_, ?_, ?_⟩
  · intro hno
    constructor <;> simp [apply_part_edit, hcur, hno]
  · intro hocc hnew
    subst hnew
    constructor <;> simp [apply_part_edit, hcur, hocc, replaceFirst_self]
  · intro i hi hne hval hw
    have hocc : occurs cur old = true := by simp [occurs, hi]
    have hneq : replaceFirst cur old new ≠ cur :=
      replaceFirst_ne cur old new i hi hne
    obtain ⟨hs, hfs⟩ := apply_edit_ok pp env bd fs p (replaceFirst cur old new)
      validate mkb (fun _ => by simp [hcur]) hval hw
    have hrw : replaceFirst cur old new
        = cur.take i ++ new ++ cur.drop (i + old.length) := by
      simp [replaceFirst, hi]
    refine ⟨?_, ?_, ?_, firstOccIdx_decomp old cur i hi,
      (firstOccIdx_spec old cur i hi).2⟩
    · simp [apply_part_edit, hcur, hocc, hneq, hs]
    · simp [apply_part_edit, hcur, hocc, hneq]
    · simp only [apply_part_edit, hcur, hocc]
      simp only [Bool.true_eq_false, if_false, hneq, if_neg hneq]
      rw [← hrw]
      simpa [apply_part_edit, hcur, hocc, hneq] using hfs

/-- C2 witness: replacing the single digit 1 by 7 in a two line file
rewrites exactly the first occurrence. -/
theorem C2_partial_edit_witness :
    firstOccIdx (("1").data) (("x = 1\ny = 2\n").data) = some 4
    ∧ ((apply_part_edit ppAny envOk "backups" fsB "b.py" (("1").data)
          (("7").data) true true).1.success = true
      ∧ (apply_part_edit ppAny envOk "backups" fsB "b.py" (("1").data)
          (("7").data) true true).1.changes_made = true
      ∧ (apply_part_edit ppAny envOk "backups" fsB "b.py" (("1").data)
          (("7").data) true true).2 "b.py"
          = some ((("x = 1\ny = 2\n").data).take 4 ++ ("7").data
              ++ (("x = 1\ny = 2\n").data).drop (4 + (("1").data).length))
      ∧ ("x = 1\ny = 2\n").data
          = (("x = 1\ny = 2\n").data).take 4 ++ ("1").data
              ++ (("x = 1\ny = 2\n").data).drop (4 + (("1").data).length)
      ∧ (∀ j, j < 4 →
          leadsWith (("1").data) ((("x = 1\ny = 2\n").data).drop j)
            = false)) :=
  ⟨by decide,
    (C2_partial_edit ppAny envOk "backups" fsB "b.py" (("1").data)
      (("7").data) true true (("x = 1\ny = 2\n").data) rfl).2.2 4
      (by decide) (by decide) (fun _ _ => ⟨[], rfl⟩) rfl⟩

/-- Replacing the last element and flattening: the tail of the flattening
is the new element. -/
theorem flatten_set_last (ls : List Content) (x : Content) (hne : ls ≠ []) :
    (ls.set (ls.length - 1) x).flatten
      = (ls.take (ls.length - 1)).flatten ++ x := by
  induction ls with
  | nil => simp at hne
  | cons h t ih =>
    cases t with
    | nil => simp
    | cons h2 t2 =>
      have hne2 : (h2 :: t2) ≠ [] := by simp
      have hlen : (h :: h2 :: t2).length - 1 = (h2 :: t2).length := by
        simp
      rw [hlen]
      have hset : (h :: h2 :: t2).set (h2 :: t2).length x
          = h :: (h2 :: t2).set ((h2 :: t2).length - 1) x := by
        have : (h2 :: t2).length = ((h2 :: t2).length - 1) + 1 := by
          simp
        rw [this]
        rfl
      rw [hset]
      have htake : (h :: h2 :: t2).take (h2 :: t2).length
          = h :: (h2 :: t2).take ((h2 :: t2).length - 1) := by
        have : (h2 :: t2).length = ((h2 :: t2).length - 1) + 1 := by
          simp
        rw [this]
        rfl
      rw [htake]
      simp only [List.flatten_cons, ih hne2, List.append_assoc]

/-- C5: apply_line_edit rejects any 1 indexed line number outside
[1, len(lines)] without touching the file; for an in range call the
replacement line is normalized to end with a single newline, and when the
funneled apply goes through the file holds exactly the lines with that one
line replaced; replacing the last line keeps a trailing terminator. -/
theorem C5_line_edit (pp : PyParse) (env : EditEnv) (bd : String) (fs : FS)
    (p : String) (ln : Int) (newl : Content) (validate mkb : Bool)
    (cur : Content) (hcur : fs p = some cur) :
    ((ln < 1 ∨ ((readlines cur).length : Int) < ln) →
      (apply_line_edit pp env bd fs p ln newl validate mkb).1.success = false
      ∧ (apply_line_edit pp env bd fs p ln newl validate mkb).1.error
          = some ("Invalid line number: " ++ toString ln ++ " (file has "
              ++ toString (readlines cur).length ++ " lines)")
      ∧ (apply_line_edit pp env bd fs p ln newl validate mkb).2 = fs)
    ∧ (1 ≤ ln → ln ≤ ((readlines cur).length : Int) →
        listEndsWith
            (if listEndsWith newl ['\n'] then newl else newl ++ ['\n'])
            ['\n'] = true
        ∧ ((validate = true → strEndsWith p ".py" = true →
              ∃ t, pp (((readlines cur).set (ln - 1).toNat
                  (if listEndsWith newl ['\n'] then newl
                   else newl ++ ['\n'])).flatten) = .ok t) →
            env.writeThrows = false →
            (apply_line_edit pp env bd fs p ln newl validate mkb).1.success
                = true
            ∧ (apply_line_edit pp env bd fs p ln newl validate mkb).2 p
                = some (((readlines cur).set (ln - 1).toNat
                    (if listEndsWith newl ['\n'] then newl
                     else newl ++ ['\n'])).flatten)
            ∧ (ln = ((readlines cur).length : Int) →
                listEndsWith (((readlines cur).set (ln - 1).toNat
                    (if listEndsWith newl ['\n'] then newl
                     else newl ++ ['\n'])).flatten) ['\n'] = true))) := by
  constructor
  · intro hout
    have hcond : (decide (ln < 1)
        || decide (ln > ((readlines cur).length : Int))) = true := by
      simp only [Bool.or_eq_true, decide_eq_true_eq]
      rcases hout with h | h
      · exact Or.inl h
      · exact Or.inr (by omega)
    refine ⟨?_, ?_, ?_⟩ <;> simp [apply_line_edit, hcur, hcond]
  · intro h1 h2
    refine ⟨lineNorm_endsWith newl, ?_⟩
    intro hval hw
    have hcond : (decide (ln < 1)
        || decide (ln > ((readlines cur).length : Int))) = false := by
      have ha : decide (ln < 1) = false :=
        decide_eq_false_iff_not.mpr (by omega)
      have hb : decide (ln > ((readlines cur).length : Int)) = false :=
        decide_eq_false_iff_not.mpr (by omega)
      rw [ha, hb]
      rfl
    obtain ⟨hs, hfs⟩ := apply_edit_ok pp env bd fs p
      (((readlines cur).set (ln - 1).toNat
        (if listEndsWith newl ['\n'] then newl else newl ++ ['\n'])).flatten)
      validate mkb (fun _ => by simp [hcur]) hval hw
    refine ⟨?_, ?_, ?_⟩
    · simp only [apply_line_edit, hcur, hcond, Bool.false_eq_true, if_false]
      exact hs
    · simp only [apply_line_edit, hcur, hcond, Bool.false_eq_true, if_false]
      exact hfs
    · intro hlast
      have hidx : (ln - 1).toNat = (readlines cur).length - 1 := by omega
      have hlsne : readlines cur ≠ [] := by
        intro hn
        rw [hn] at h2
        simp at h2
        omega
      rw [hidx, flatten_set_last (readlines cur) _ hlsne]
      exact listEndsWith_append _ _ _ (lineNorm_endsWith newl)

/-- C5 witness: replacing the last line of a two line file succeeds and
keeps a trailing newline; line number 0 is rejected. -/
theorem C5_line_edit_witness :
    ((0 : Int) < 1 ∨ ((readlines (("x = 1\ny = 2\n").data)).length : Int)
        < 0)
    ∧ ((apply_line_edit ppAny envOk "backups" fsB "b.py" 0 (("z = 9").data)
          true true).1.success = false
      ∧ (apply_line_edit ppAny envOk "backups" fsB "b.py" 0 (("z = 9").data)
          true true).1.error
          = some ("Invalid line number: " ++ toString (0 : Int)
              ++ " (file has "
              ++ toString (readlines (("x = 1\ny = 2\n").data)).length
              ++ " lines)")
      ∧ (apply_line_edit ppAny envOk "backups" fsB "b.py" 0 (("z = 9").data)
          true true).2 = fsB)
    ∧ ((apply_line_edit ppAny envOk "backups" fsB "b.py" 2 (("z = 9").data)
          true true).1.success = true
      ∧ (apply_line_edit ppAny envOk "backups" fsB "b.py" 2 (("z = 9").data)
          true true).2 "b.py"
          = some (((readlines (("x = 1\ny = 2\n").data)).set
              ((2 : Int) - 1).toNat
              (if listEndsWith (("z = 9").data) ['\n'] then (("z = 9").data)
               else (("z = 9").data) ++ ['\n'])).flatten)
      ∧ ((2 : Int) = ((readlines (("x = 1\ny = 2\n").data)).length : Int) →
          listEndsWith (((readlines (("x = 1\ny = 2\n").data)).set
              ((2 : Int) - 1).toNat
              (if listEndsWith (("z = 9").data) ['\n'] then (("z = 9").data)
               else (("z = 9").data) ++ ['\n'])).flatten) ['\n'] = true)) :=
  ⟨Or.inl (by omega),
    (C5_line_edit ppAny envOk "backups" fsB "b.py" 0 (("z = 9").data)
      true true (("x = 1\ny = 2\n").data) rfl).1 (Or.inl (by omega)),
    ((C5_line_edit ppAny envOk "backups" fsB "b.py" 2 (("z = 9").data)
      true true (("x = 1\ny = 2\n").data) rfl).2 (by omega) (by decide)).2
      (fun _ _ => ⟨[], rfl⟩) rfl⟩

/-- C4: get_issue_priority assigns priority 3 to pylint issues with
severity error and 2 to every other pylint issue, 2 to complexity issues
and 1 to maintainability issues, and returns the merged list sorted by the
tuple key (-priority, line) with a stable sort: the output is a permutation
of the merge, pairwise ordered under the key, and every equal key sublist
keeps its merge order (pylint, then complexity, then maintainability). -/
theorem C4_priority_ranking (d : IssuesDict) :
    List.Perm (get_issue_priority d) (mergedIssues d)
    ∧ (get_issue_priority d).Pairwise (fun a b => keyLe a b = true)
    ∧ (∀ k : Nat × Nat,
        (get_issue_priority d).filter (fun r => decide (keyOf r = k))
          = (mergedIssues d).filter (fun r => decide (keyOf r = k)))
    ∧ (∀ i ∈ d.pylint_issues,
        (⟨i, if i.severity = some "error" then 3 else 2⟩ : Ranked)
          ∈ get_issue_priority d)
    ∧ (∀ i ∈ d.complexity_issues, (⟨i, 2⟩ : Ranked) ∈ get_issue_priority d)
    ∧ (∀ i ∈ d.maintainability_issues,
        (⟨i, 1⟩ : Ranked) ∈ get_issue_priority d) := by
  have hperm : List.Perm (get_issue_priority d) (mergedIssues d) := by
    have h := (sortFold_spec (0, 0) (mergedIssues d) [] List.Pairwise.nil).2.1
    simpa [get_issue_priority, sortStable] using h
  refine ⟨hperm, ?_, ?_, ?_, ?_, ?_⟩
  · have h := (sortFold_spec (0, 0) (mergedIssues d) [] List.Pairwise.nil).1
    simpa [get_issue_priority, sortStable] using h
  · intro k
    have h := (sortFold_spec k (mergedIssues d) [] List.Pairwise.nil).2.2
    simpa [get_issue_priority, sortStable] using h
  · intro i hi
    refine hperm.mem_iff.mpr ?_
    unfold mergedIssues
    exact List.mem_append_left _ (List.mem_append_left _
      (List.mem_map_of_mem _ hi))
  · intro i hi
    refine hperm.mem_iff.mpr ?_
    unfold mergedIssues
    exact List.mem_append_left _ (List.mem_append_right _
      (List.mem_map_of_mem _ hi))
  · intro i hi
    refine hperm.mem_iff.mpr ?_
    unfold mergedIssues
    exact List.mem_append_right _ (List.mem_map_of_mem _ hi)

/-- C4 witness: the ranking example (pylint error at line 5, pylint
warning at line 3, complexity warning at line 5) is a permutation of its
merge, sorted and stable, and evaluates to the concrete ranked order. -/
theorem C4_priority_ranking_witness :
    List.Perm (get_issue_priority exD) (mergedIssues exD)
    ∧ (get_issue_priority exD).Pairwise (fun a b => keyLe a b = true)
    ∧ get_issue_priority exD
        = [ ⟨⟨some "error", some 5, 0⟩, 3⟩,
            ⟨⟨some "warning", some 3, 2⟩, 2⟩,
            ⟨⟨some "warning", some 5, 1⟩, 2⟩ ] :=
  ⟨(C4_priority_ranking exD).1, (C4_priority_ranking exD).2.1, by decide⟩

/-- C9: the orchestrator loop addresses at most the first five ranked
issues of each file (the issue list processed per file is a prefix of
length at most five), records every failed mutation while the loop keeps
going (the failed list is exactly the failures across all files in order),
and the run reports success exactly when no mutation failed. -/
theorem C9_fix_loop (step : String → PIssue → FixOutcome)
    (files : List FileIssues) :
    ((fix_repository_result step files).success = true
      ↔ (fix_repository_result step files).fixes_failed = 0)
    ∧ fixLoop step files
        = ((files.map (appliedOf step)).flatten,
           (files.map (failedOf step)).flatten)
    ∧ (∀ fi ∈ files, (fi.issues.take 5).length ≤ 5
        ∧ ∃ rest, fi.issues = fi.issues.take 5 ++ rest) := by
  refine ⟨?_, fixLoop_spec step files, ?_⟩
  · unfold fix_repository_result
    by_cases hz : (files.map (fun fi => fi.issues.length)).sum = 0
    · rw [if_pos hz]
      simp
    · rw [if_neg hz]
      simp
  · intro fi hfi
    constructor
    · rw [List.length_take]
      exact Nat.min_le_left _ _
    · exact ⟨fi.issues.drop 5, (List.take_append_drop 5 fi.issues).symm⟩

/-- C9 witness: on a batch with seven issues on one file and one on a
second, with one failing and one skipped issue among the first five, the
loop caps at five, records the failure, and reports no success. -/
theorem C9_fix_loop_witness :
    ((fix_repository_result exStepC9 exFilesC9).success = true
      ↔ (fix_repository_result exStepC9 exFilesC9).fixes_failed = 0)
    ∧ fixLoop exStepC9 exFilesC9
        = ((exFilesC9.map (appliedOf exStepC9)).flatten,
           (exFilesC9.map (failedOf exStepC9)).flatten)
    ∧ fix_repository_result exStepC9 exFilesC9 = ⟨4, 1, false⟩ :=
  ⟨(C9_fix_loop exStepC9 exFilesC9).1, (C9_fix_loop exStepC9 exFilesC9).2.1,
    by decide⟩

/-- C3 counterexample: on a module whose definition of f first in document
order is nested inside g (lines 2..3) while a second definition of f sits
at top level (lines 4..5), apply_function_edit replaces the top level one,
because ast.walk is breadth first and reaches the shallower node first.
The resulting file keeps lines 1..3 intact (including the document first
f) and differs from the content the claim predicts, namely the splice over
the document first span (take 1 of the lines, the new code, drop 3). -/
theorem C3_counterexample :
    (apply_function_edit ppC3 envOk "backups" fsC3 "m.py" "f" exNewFnC3
        true true).2 "m.py"
      = some (("def g():\n    def f():\n        return 1\n").data
          ++ exNewFnC3)
    ∧ (apply_function_edit ppC3 envOk "backups" fsC3 "m.py" "f" exNewFnC3
        true true).2 "m.py"
      ≠ some (joinNl ((splitOnNl exContentC3).take 1 ++ [exNewFnC3]
          ++ (splitOnNl exContentC3).drop 3)) := by
  constructor
  · decide
  · decide

/-- C3 amended: apply_function_edit rewrites the first matching
ast.FunctionDef in the breadth first ast.walk order (which is the first in
document order only when the candidates are siblings: a shallower later
definition is found before a deeper earlier one); it splices the new text
over that definitions lineno..end_lineno span, preserving every line
strictly before and strictly after the span byte for byte, and it fails
with a function not found error, filesystem untouched, when no matching
FunctionDef exists. -/
theorem C3_amended_function_edit (pp : PyParse) (env : EditEnv)
    (bd : String) (fs : FS) (p fname : String) (newfn : Content)
    (mkb : Bool) (cur : Content) (tree : List PyNode)
    (hcur : fs p = some cur) (hpp : pp cur = .ok tree) :
    (∀ node, (walkBFS tree).find? (PyNode.isFnNamed fname) = some node →
      PyNode.isFnNamed fname node = true
      ∧ (∃ pre post, walkBFS tree = pre ++ node :: post
          ∧ ∀ y ∈ pre, PyNode.isFnNamed fname y = false)
      ∧ ((strEndsWith p ".py" = true →
            ∃ t, pp (joinNl ((splitOnNl cur).take (node.lineno - 1)
              ++ [newfn] ++ (splitOnNl cur).drop node.endLineno)) = .ok t) →
          env.writeThrows = false →
          (apply_function_edit pp env bd fs p fname newfn true mkb).1.success
              = true
          ∧ (apply_function_edit pp env bd fs p fname newfn true mkb).2 p
              = some (joinNl ((splitOnNl cur).take (node.lineno - 1)
                  ++ [newfn] ++ (splitOnNl cur).drop node.endLineno))
          ∧ (node.lineno - 1 ≤ (splitOnNl cur).length →
              (∀ j, j < node.lineno - 1 →
                ((splitOnNl cur).take (node.lineno - 1) ++ [newfn]
                  ++ (splitOnNl cur).drop node.endLineno).get? j
                  = (splitOnNl cur).get? j)
              ∧ (∀ j, ((splitOnNl cur).take (node.lineno - 1) ++ [newfn]
                  ++ (splitOnNl cur).drop node.endLineno).get?
                    (node.lineno - 1 + 1 + j)
                  = (splitOnNl cur).get? (node.endLineno + j)))))
    ∧ ((walkBFS tree).find? (PyNode.isFnNamed fname) = none →
        (apply_function_edit pp env bd fs p fname newfn true mkb).1.error
            = some ("Function " ++ fname ++ " not found in file")
        ∧ (apply_function_edit pp env bd fs p fname newfn true mkb).2
            = fs) := by
  constructor
  · intro node hfind
    obtain ⟨hpred, pre, post, hsplit, hclean⟩ :=
      find?_first (PyNode.isFnNamed fname) (walkBFS tree) node hfind
    refine ⟨hpred, ⟨pre, post, hsplit, hclean⟩, ?_⟩
    intro hval hw
    obtain ⟨hs, hfs⟩ := apply_edit_ok pp env bd fs p
      (joinNl ((splitOnNl cur).take (node.lineno - 1) ++ [newfn]
        ++ (splitOnNl cur).drop node.endLineno))
      true mkb (fun _ => by simp [hcur]) (fun _ => hval) hw
    have h0 : apply_function_edit pp env bd fs p fname newfn true mkb
        = apply_edit pp env bd fs p
            (joinNl ((splitOnNl cur).take (node.lineno - 1) ++ [newfn]
              ++ (splitOnNl cur).drop node.endLineno)) true mkb := by
      simp [apply_function_edit, hcur, hpp, hfind]
    rw [h0]
    refine ⟨hs, hfs, ?_⟩
    intro hsp
    constructor
    · intro j hj
      have hjlen : j < ((splitOnNl cur).take (node.lineno - 1)).length := by
        rw [List.length_take]
        omega
      rw [List.append_assoc, List.get?_append hjlen]
      exact List.get?_take hj
    · intro j
      have hlen : ((splitOnNl cur).take (node.lineno - 1)
          ++ [newfn]).length = node.lineno - 1 + 1 := by
        simp [List.length_take]
        omega
      have hge : ((splitOnNl cur).take (node.lineno - 1)
          ++ [newfn]).length ≤ node.lineno - 1 + 1 + j := by
        omega
      rw [List.get?_append_right hge]
      rw [hlen]
      have hidx : node.lineno - 1 + 1 + j - (node.lineno - 1 + 1) = j := by
        omega
      rw [hidx, List.get?_drop]
  · intro hnone
    have h0 : apply_function_edit pp env bd fs p fname newfn true mkb
        = (⟨false, none,
            some ("Function " ++ fname ++ " not found in file"),
            none, false⟩, fs) := by
      simp [apply_function_edit, hcur, hpp, hnone]
    rw [h0]
    exact ⟨rfl, rfl⟩

/-- C3 amended witness: on the duplicated name module the locator picks the
top level f (lines 4..5), the splice succeeds and produces exactly the
lines before the span, the new code, and the lines after the span. -/
theorem C3_amended_function_edit_witness :
    (walkBFS exTreeC3).find? (PyNode.isFnNamed "f")
        = some (.functionDef "f" 4 5 [])
    ∧ (apply_function_edit ppC3 envOk "backups" fsC3 "m.py" "f" exNewFnC3
        true true).1.success = true
    ∧ (apply_function_edit ppC3 envOk "backups" fsC3 "m.py" "f" exNewFnC3
        true true).2 "m.py"
        = some (joinNl ((splitOnNl exContentC3).take 3 ++ [exNewFnC3]
            ++ (splitOnNl exContentC3).drop 5)) := by
  have h := (C3_amended_function_edit ppC3 envOk "backups" fsC3 "m.py" "f"
      exNewFnC3 true exContentC3 exTreeC3 rfl rfl).1
      (.functionDef "f" 4 5 []) rfl
  obtain ⟨-, -, h3⟩ := h
  obtain ⟨hs, hfs, -⟩ := h3 (fun _ => ⟨[], rfl⟩) rfl
  exact ⟨rfl, hs, hfs⟩

/-- C10: when every definition carrying the target name anywhere in the
tree is an ast.AsyncFunctionDef and none is a plain ast.FunctionDef, the
locator (which tests isinstance against ast.FunctionDef only) finds
nothing: apply_function_edit fails with a function not found error and
leaves the filesystem untouched. -/
theorem C10_async_def_not_found (pp : PyParse) (env : EditEnv) (bd : String)
    (fs : FS) (p fname : String) (newfn : Content) (validate mkb : Bool)
    (cur : Content) (tree : List PyNode)
    (hcur : fs p = some cur) (hpp : pp cur = .ok tree)
    (hasync : ∃ x, (∃ n ∈ tree, InTree x n)
        ∧ ∃ l e b, x = PyNode.asyncFunctionDef fname l e b)
    (hnosync : ∀ x, (∃ n ∈ tree, InTree x n) →
        PyNode.isFnNamed fname x = false) :
    (apply_function_edit pp env bd fs p fname newfn validate mkb).1.error
        = some ("Function " ++ fname ++ " not found in file")
    ∧ (apply_function_edit pp env bd fs p fname newfn validate mkb).2
        = fs := by
  have hnone : (walkBFS tree).find? (PyNode.isFnNamed fname) = none := by
    rw [List.find?_eq_none]
    intro x hx
    have hfalse := hnosync x ((walkBFS_mem_iff tree x).1 hx)
    simp [hfalse]
  have h0 : apply_function_edit pp env bd fs p fname newfn validate mkb
      = (⟨false, none, some ("Function " ++ fname ++ " not found in file"),
          none, false⟩, fs) := by
    simp [apply_function_edit, hcur, hpp, hnone]
  rw [h0]
  exact ⟨rfl, rfl⟩

/-- C10 witness: a module whose only f is an async def makes the function
edit fail with the not found error and change nothing. -/
theorem C10_async_def_not_found_witness :
    (apply_function_edit ppC10 envOk "backups" fsC10 "n.py" "f"
        (("def f():\n    return 3").data) true true).1.error
        = some ("Function " ++ "f" ++ " not found in file")
    ∧ (apply_function_edit ppC10 envOk "backups" fsC10 "n.py" "f"
        (("def f():\n    return 3").data) true true).2 = fsC10 := by
  refine C10_async_def_not_found ppC10 envOk "backups" fsC10 "n.py" "f"
    (("def f():\n    return 3").data) true true exContentC10 exTreeC10
    rfl rfl ?_ ?_
  · exact ⟨.asyncFunctionDef "f" 1 2 [],
      ⟨.asyncFunctionDef "f" 1 2 [], by simp [exTreeC10], InTree.refl _⟩,
      1, 2, [], rfl⟩
  · intro x hx
    obtain ⟨n, hn, hxn⟩ := hx
    simp [exTreeC10] at hn
    subst hn
    cases hxn with
    | refl => rfl
    | child hy hz =>
      simp [PyNode.children] at hy

end Healr
